import Mathlib

/-!
# Verification of the gotool binary RPC protocol and session transport

Shallow embedding of the message framing code (`src/protocol/message.go`,
the header file and the metadata codec), the session close / write-retry
logic (`src/server/session.go`) and the per-request context reset
(`src/service/service_manager.go`), together with proofs settling the
frozen claims about them.

Bytes are modelled as `Nat` (every value produced by the encoders is
`< 256`; the decoders apply the Go byte coercion `% 256` exactly where the
source converts). Machine `uint32` arithmetic is modelled as `Nat`
arithmetic `% 2^32`. Go slices are modelled with their underlying buffer,
offset and length, so that capacity (`cap = buf.length - off`) and the Go
rules for slicing (panic when an index passes the capacity) are kept.
Fallible Go code returns a `GoResult`: a normal value, a returned `error`,
or a runtime panic.
-/

namespace GoTool

/-- 2^32, the modulus of Go `uint32` arithmetic. -/
def U32M : Nat := 4294967296

/-- Go `uint32` addition: `(a + b)` wrapped mod 2^32. -/
def u32add (a b : Nat) : Nat := (a + b) % U32M

/-- Go `uint32` subtraction: `(a - b)` wrapped mod 2^32. -/
def u32sub (a b : Nat) : Nat := (a % U32M + U32M - b % U32M) % U32M

/-- `binary.BigEndian.PutUint32`: the 4 big-endian bytes of `uint32(x)`. -/
def u32be (x : Nat) : List Nat :=
  [x / 16777216 % 256, x / 65536 % 256, x / 256 % 256, x % 256]

/-- `binary.BigEndian.Uint32` on a list of bytes: big-endian accumulation.
The `% 256` is the Go `byte` coercion (a no-op on real bytes). -/
def beU32 (bs : List Nat) : Nat :=
  bs.foldl (fun acc b => acc * 256 + b % 256) 0

/-- Errors returned by the embedded Go code (`errors.New` values in
`src/protocol/message.go`, plus opaque compressor errors). -/
inductive GoErr where
  /-- `ErrMetaKVMissing` -/
  | metaKVMissing
  /-- `ErrRpcMessageTooLong` -/
  | messageTooLong
  /-- `ErrUnsupportedCompressor` -/
  | unsupportedCompressor
  /-- `fmt.Errorf("wrong magic number: %v", ...)` -/
  | wrongMagic
  /-- an `io.ReadFull` short read / EOF -/
  | eof
  /-- an error returned by a compressor, carrying an opaque code -/
  | compressorErr (code : Nat)
  deriving DecidableEq, Repr

/-- Outcome of running a piece of Go code: a value, a returned error, or a
runtime panic (out-of-range slice index, etc.). -/
inductive GoResult (α : Type) where
  | ok (a : α)
  | err (e : GoErr)
  | panic
  deriving DecidableEq, Repr

namespace GoResult

def bind {α β : Type} : GoResult α → (α → GoResult β) → GoResult β
  | .ok a, f => f a
  | .err e, _ => .err e
  | .panic, _ => .panic

instance : Monad GoResult where
  pure := .ok
  bind := bind

@[simp] theorem bind_ok {α β : Type} (a : α) (f : α → GoResult β) :
    bind (.ok a) f = f a := rfl

@[simp] theorem bind_err {α β : Type} (e : GoErr) (f : α → GoResult β) :
    bind (.err e) f = .err e := rfl

@[simp] theorem bind_panic {α β : Type} (f : α → GoResult β) :
    bind .panic f = .panic := rfl

@[simp] theorem monad_bind_eq_bind {α β : Type} (x : GoResult α) (f : α → GoResult β) :
    (x >>= f) = bind x f := rfl

@[simp] theorem pure_eq_ok {α : Type} (a : α) : (pure a : GoResult α) = .ok a := rfl

end GoResult

/-- Lift a Go operation that panics on `none` (slice expression out of
range, slice index out of range) into `GoResult`. -/
def orPanic {α : Type} : Option α → GoResult α
  | some a => .ok a
  | none => .panic

@[simp] theorem orPanic_some {α : Type} (a : α) : orPanic (some a) = .ok a := rfl

@[simp] theorem orPanic_none {α : Type} : orPanic (none : Option α) = .panic := rfl

/-- A Go slice: underlying buffer, start offset and length. Its capacity
is everything from the offset to the end of the buffer. -/
structure GoSlice where
  buf : List Nat
  off : Nat
  len : Nat
  deriving DecidableEq, Repr

namespace GoSlice

/-- `cap(s)` of a Go slice in this model. -/
def cap (s : GoSlice) : Nat := s.buf.length - s.off

/-- The bytes visible through the slice (`s[0:len]`). -/
def bytes (s : GoSlice) : List Nat := (s.buf.drop s.off).take s.len

/-- The Go slice expression `s[a:b]`: legal when `a ≤ b ≤ cap(s)`,
otherwise a runtime panic (`none`). -/
def sub (s : GoSlice) (a b : Nat) : Option GoSlice :=
  if a ≤ b ∧ b ≤ s.cap then some ⟨s.buf, s.off + a, b - a⟩ else none

/-- `binary.BigEndian.Uint32(s)`: panics (via the `_ = b[3]` bounds check)
when the slice is shorter than 4 bytes. -/
def u32 (s : GoSlice) : Option Nat :=
  if 4 ≤ s.len then some (beU32 (s.bytes.take 4)) else none

theorem sub_ok (s : GoSlice) (a b : Nat) (h1 : a ≤ b) (h2 : b ≤ s.cap) :
    s.sub a b = some ⟨s.buf, s.off + a, b - a⟩ := by
  simp [sub, h1, h2]

theorem le_of_sub_eq_some {s : GoSlice} {a b : Nat} {t : GoSlice}
    (h : s.sub a b = some t) : a ≤ b := by
  by_cases hc : a ≤ b ∧ b ≤ s.cap
  · exact hc.1
  · simp [sub, hc] at h

theorem u32_ok (s : GoSlice) (h : 4 ≤ s.len) :
    s.u32 = some (beU32 (s.bytes.take 4)) := by
  simp [u32, h]

end GoSlice

/-! ## The bit-packed header (`src/unnamed/part_000`, `Header`)

A header is the fixed 12-byte array; we model it as a list of bytes of
length 12 (theorems about a header carry that hypothesis where needed).
`h[2]` is the flags byte. -/

/-- `magicNumber byte = 0x08` -/
def magicNumber : Nat := 8

/-- `h.CheckMagicNumber()`: `h[0] == magicNumber`. -/
def checkMagicNumber (h : List Nat) : Bool := h.getD 0 0 == magicNumber

/-- `h.MessageType()`: `(h[2] & 0x80) >> 7` (0 = Request, 1 = Response). -/
def messageTypeB (h : List Nat) : Nat := (h.getD 2 0 &&& 0x80) >>> 7

/-- `h.SetMessageType(mt)`: `h[2] = h[2] | (byte(mt) << 7)` — an OR with no
prior masking of bit 7. -/
def setMessageTypeB (h : List Nat) (mt : Nat) : List Nat :=
  h.set 2 (h.getD 2 0 ||| (mt % 256) <<< 7 % 256)

/-- `h.IsHeartbeat()`: `h[2] & 0x40 == 0x40`. -/
def isHeartbeatB (h : List Nat) : Bool := h.getD 2 0 &&& 0x40 == 0x40

/-- `h.SetHeartbeat(hb)`: sets or clears (`&^ 0x40`) bit 6. -/
def setHeartbeatB (h : List Nat) (hb : Bool) : List Nat :=
  if hb then h.set 2 (h.getD 2 0 ||| 0x40)
  else h.set 2 (h.getD 2 0 &&& (255 - 0x40))

/-- `h.IsOneway()`: `h[2] & 0x20 == 0x20`. -/
def isOnewayB (h : List Nat) : Bool := h.getD 2 0 &&& 0x20 == 0x20

/-- `h.SetOneway(ow)`: sets or clears (`&^ 0x20`) bit 5. -/
def setOnewayB (h : List Nat) (ow : Bool) : List Nat :=
  if ow then h.set 2 (h.getD 2 0 ||| 0x20)
  else h.set 2 (h.getD 2 0 &&& (255 - 0x20))

/-- `h.CompressType()`: `(h[2] & 0x1C) >> 2`. -/
def compressTypeB (h : List Nat) : Nat := (h.getD 2 0 &&& 0x1C) >>> 2

/-- `h.SetCompressType(ct)`: `h[2] = (h[2] &^ 0x1C) | ((byte(ct) << 2) & 0x1C)`. -/
def setCompressTypeB (h : List Nat) (ct : Nat) : List Nat :=
  h.set 2 ((h.getD 2 0 &&& (255 - 0x1C)) ||| ((ct % 256) <<< 2 &&& 0x1C))

/-- `h.MessageStatusType()`: `h[2] & 0x03`. -/
def messageStatusTypeB (h : List Nat) : Nat := h.getD 2 0 &&& 0x03

/-- `h.SetMessageStatusType(st)`: `h[2] = (h[2] &^ 0x03) | (byte(st) & 0x03)`. -/
def setMessageStatusTypeB (h : List Nat) (st : Nat) : List Nat :=
  h.set 2 ((h.getD 2 0 &&& (255 - 0x03)) ||| (st % 256 &&& 0x03))

/-- The header built by `NewRpcMessage`: magic byte then eleven zero bytes. -/
def freshHeader : List Nat := [8, 0, 0, 0, 0, 0, 0, 0, 0, 0, 0, 0]

/-! ## Metadata TLV codec (`src/unnamed/part_001`) -/

/-- Metadata: the entries of the Go `map[string]string`, as key/value
byte-string pairs in iteration order. -/
abbrev MetaMap : Type := List (List Nat × List Nat)

/-- Go map assignment `m[k] = v`: overwrite the entry for `k` in place,
or append a new one. -/
def mapInsert : MetaMap → List Nat → List Nat → MetaMap
  | [], k, v => [(k, v)]
  | (k', v') :: rest, k, v =>
    if k' = k then (k, v) :: rest else (k', v') :: mapInsert rest k v

/-- One pair as written by `encodeMetadata`: 4-byte big-endian key length,
key bytes, 4-byte big-endian value length, value bytes. -/
def encPair (kv : List Nat × List Nat) : List Nat :=
  u32be kv.1.length ++ kv.1 ++ u32be kv.2.length ++ kv.2

/-- `encodeMetadata`: the TLV pairs concatenated (nothing for an empty map). -/
def encMeta : MetaMap → List Nat
  | [] => []
  | kv :: rest => encPair kv ++ encMeta rest

theorem beU32_foldl_lt (bs : List Nat) :
    ∀ acc : Nat, bs.foldl (fun acc b => acc * 256 + b % 256) acc < (acc + 1) * 256 ^ bs.length := by
  induction bs with
  | nil => intro acc; simp
  | cons b bs ih =>
    intro acc
    calc (b :: bs).foldl (fun acc b => acc * 256 + b % 256) acc
        = bs.foldl (fun acc b => acc * 256 + b % 256) (acc * 256 + b % 256) := rfl
      _ < (acc * 256 + b % 256 + 1) * 256 ^ bs.length := ih _
      _ ≤ ((acc + 1) * 256) * 256 ^ bs.length := by
          have : b % 256 < 256 := Nat.mod_lt _ (by norm_num)
          have h1 : acc * 256 + b % 256 + 1 ≤ (acc + 1) * 256 := by nlinarith
          exact Nat.mul_le_mul_right _ h1
      _ = (acc + 1) * 256 ^ (b :: bs).length := by
          simp only [List.length_cons, pow_succ]; ring

/-- `binary.BigEndian.Uint32` always yields a value below 2^32. -/
theorem u32_lt {s : GoSlice} {v : Nat} (h : s.u32 = some v) : v < U32M := by
  by_cases hc : 4 ≤ s.len
  · rw [GoSlice.u32_ok s hc] at h
    have hv : v = beU32 (s.bytes.take 4) := by injection h; omega
    have hlen : (s.bytes.take 4).length ≤ 4 := by
      simpa using List.length_take_le 4 s.bytes
    have := beU32_foldl_lt (s.bytes.take 4) 0
    have hle : 256 ^ (s.bytes.take 4).length ≤ 256 ^ 4 :=
      Nat.pow_le_pow_right (by norm_num) hlen
    subst hv
    unfold beU32
    calc (s.bytes.take 4).foldl (fun acc b => acc * 256 + b % 256) 0
        < (0 + 1) * 256 ^ (s.bytes.take 4).length := beU32_foldl_lt _ 0
      _ ≤ 256 ^ 4 := by simpa using hle
      _ ≤ U32M := by norm_num [U32M]
  · simp [GoSlice.u32, hc] at h

theorem u32add_eq_of_le {a k : Nat} (hk : k < U32M) (h : a ≤ u32add a k) :
    u32add a k = a + k := by
  unfold u32add U32M at *
  omega

/-- `beU32` of at most 4 bytes is below 2^32. -/
theorem beU32_lt_U32M {bs : List Nat} (h : bs.length ≤ 4) : beU32 bs < U32M := by
  have := beU32_foldl_lt bs 0
  have hle : 256 ^ bs.length ≤ 256 ^ 4 := Nat.pow_le_pow_right (by norm_num) h
  unfold beU32
  calc bs.foldl (fun acc b => acc * 256 + b % 256) 0
      < (0 + 1) * 256 ^ bs.length := beU32_foldl_lt bs 0
    _ ≤ 256 ^ 4 := by simpa using hle
    _ ≤ U32M := by norm_num [U32M]

/-- The Go slice expression `data[a:b]` when legal: same buffer, offset
advanced by `a`, length `b - a`. -/
def sliceAt (data : GoSlice) (a b : Nat) : GoSlice := ⟨data.buf, data.off + a, b - a⟩

/-- `binary.BigEndian.Uint32(data[a:b])`: the first four visible bytes. -/
def rdU32 (data : GoSlice) (a b : Nat) : Nat := beU32 (((sliceAt data a b).bytes).take 4)

/-- Cursor after the key-length field: `n + 4` in `uint32` arithmetic. -/
def mdN1 (n : Nat) : Nat := u32add n 4

/-- The key length read at cursor `n`. -/
def mdSl (data : GoSlice) (n : Nat) : Nat := rdU32 data n (mdN1 n)

/-- Cursor after the key bytes. -/
def mdN2 (data : GoSlice) (n : Nat) : Nat := u32add (mdN1 n) (mdSl data n)

/-- Cursor after the value-length field. -/
def mdN3 (data : GoSlice) (n : Nat) : Nat := u32add (mdN2 data n) 4

/-- The value length read at cursor `mdN2`. -/
def mdSl2 (data : GoSlice) (n : Nat) : Nat := rdU32 data (mdN2 data n) (mdN3 data n)

/-- Cursor after the value bytes: start of the next pair. -/
def mdN4 (data : GoSlice) (n : Nat) : Nat := u32add (mdN3 data n) (mdSl2 data n)

theorem mdSl_lt (data : GoSlice) (n : Nat) : mdSl data n < U32M :=
  beU32_lt_U32M (by simpa using List.length_take_le 4 _)

theorem mdSl2_lt (data : GoSlice) (n : Nat) : mdSl2 data n < U32M :=
  beU32_lt_U32M (by simpa using List.length_take_le 4 _)

/-- The loop body of `decodeMetadata`: cursor `n` walks the declared
`l` bytes, reading a 4-byte key length, the key, a 4-byte value length and
the value per iteration, with the source's two bound checks
(`n+sl > l-4` for keys, `n+sl > l` for values) in `uint32` arithmetic.
The Go slice expressions `data[a:b]` are inlined: each is legal when
`a ≤ b ≤ cap(data)` (else a runtime panic) and yields `sliceAt data a b`;
`binary.BigEndian.Uint32` checks that its slice holds at least 4 bytes
(else panic) and reads the first four. -/
def decodeMetadataLoop (l : Nat) (data : GoSlice) (m : MetaMap) (n : Nat) :
    GoResult MetaMap :=
  if hn : n < l then
    if h1 : n ≤ mdN1 n ∧ mdN1 n ≤ data.cap then
      if 4 ≤ (sliceAt data n (mdN1 n)).len then
        if mdN2 data n > u32sub l 4 then .err .metaKVMissing
        else
          if h2 : mdN1 n ≤ mdN2 data n ∧ mdN2 data n ≤ data.cap then
            if h3 : mdN2 data n ≤ mdN3 data n ∧ mdN3 data n ≤ data.cap then
              if 4 ≤ (sliceAt data (mdN2 data n) (mdN3 data n)).len then
                if mdN4 data n > l then .err .metaKVMissing
                else
                  if h4 : mdN3 data n ≤ mdN4 data n ∧ mdN4 data n ≤ data.cap then
                    decodeMetadataLoop l data
                      (mapInsert m (sliceAt data (mdN1 n) (mdN2 data n)).bytes
                        (sliceAt data (mdN3 data n) (mdN4 data n)).bytes)
                      (mdN4 data n)
                  else .panic
              else .panic
            else .panic
          else .panic
      else .panic
    else .panic
  else .ok m
termination_by l - n
decreasing_by
  simp_wf
  have f1 : mdN1 n = n + 4 := u32add_eq_of_le (by norm_num [U32M]) h1.1
  have f2 : mdN2 data n = mdN1 n + mdSl data n :=
    u32add_eq_of_le (mdSl_lt data n) h2.1
  have f3 : mdN3 data n = mdN2 data n + 4 :=
    u32add_eq_of_le (by norm_num [U32M]) h3.1
  have f4 : mdN4 data n = mdN3 data n + mdSl2 data n :=
    u32add_eq_of_le (mdSl2_lt data n) h4.1
  omega

/-- `decodeMetadata(l, data)`: run the loop from cursor 0 with an empty map. -/
def decodeMetadata (l : Nat) (data : GoSlice) : GoResult MetaMap :=
  decodeMetadataLoop l data [] 0

/-! ## Message encode / decode (`src/protocol/message.go`) -/

/-- The `Compressor` interface: `Zip`/`Unzip` over byte strings, failing
with an opaque error code. External collaborator of the framer; the
concrete gzip implementation lives outside this repository. -/
structure Compressor where
  zip : List Nat → Except Nat (List Nat)
  unzip : List Nat → Except Nat (List Nat)

/-- The global `Compressors` registry: a partial map from the 3-bit
compression code to a compressor (`nil` entries are unregistered codes). -/
def Registry : Type := Nat → Option Compressor

/-- `Message`: header plus body fields (`MessageHeader` + `MessageBody`). -/
structure RpcMessage where
  header : List Nat
  servicePath : List Nat
  serviceMethod : List Nat
  metadata : MetaMap
  payload : List Nat
  deriving DecidableEq, Repr

/-- The body fields produced by the parsing section of `Decode`. -/
structure BodyFields where
  servicePath : List Nat
  serviceMethod : List Nat
  metadata : MetaMap
  payload : List Nat
  deriving DecidableEq, Repr

/-- The compression step of `EncodeSlicePointer`: when the header carries a
non-identity code, look up the compressor; on a missing compressor or a
failing `Zip` the code downgrades — it clears the compression code on the
header and keeps the original payload. Returns the header bytes that will
be copied into the frame and the on-wire payload. -/
def encCompress (reg : Registry) (m : RpcMessage) : List Nat × List Nat :=
  if compressTypeB m.header ≠ 0 then
    match reg (compressTypeB m.header) with
    | none => (setCompressTypeB m.header 0, m.payload)
    | some c =>
      match c.zip m.payload with
      | .error _ => (setCompressTypeB m.header 0, m.payload)
      | .ok p => (m.header, p)
  else (m.header, m.payload)

/-- A full frame: header, 4-byte total length, then the four length-prefixed
sections. `EncodeSlicePointer` produces exactly this byte sequence (its
buffer offsets `metaStart`, `payLoadStart` are the cumulative lengths of
the preceding pieces). -/
def frameBytes (hd sp sm meta pay : List Nat) : List Nat :=
  let totalL := (4 + sp.length) + (4 + sm.length) + (4 + meta.length) + (4 + pay.length)
  hd ++ u32be totalL ++ u32be sp.length ++ sp ++ u32be sm.length ++ sm ++
    u32be meta.length ++ meta ++ u32be pay.length ++ pay

/-- `Message.EncodeSlicePointer` (and hence `Message.Encode`): encode the
metadata, run the (downgrading) compression step, then assemble the frame. -/
def encodeSlicePointer (reg : Registry) (m : RpcMessage) : List Nat :=
  let meta := encMeta m.metadata
  let hp := encCompress reg m
  frameBytes hp.1 m.servicePath m.serviceMethod meta hp.2

/-- `Message.WriteTo`: writes the 12-byte header first; then, unlike
`EncodeSlicePointer`, a missing compressor or failing `Zip` aborts with the
error (after only the header has been written) instead of downgrading.
Returns the bytes written and the returned error, for a writer that itself
never fails. -/
def writeTo (reg : Registry) (m : RpcMessage) : List Nat × Option GoErr :=
  let meta := encMeta m.metadata
  if compressTypeB m.header ≠ 0 then
    match reg (compressTypeB m.header) with
    | none => (m.header, some .unsupportedCompressor)
    | some c =>
      match c.zip m.payload with
      | .error e => (m.header, some (.compressorErr e))
      | .ok p => (frameBytes m.header m.servicePath m.serviceMethod meta p, none)
  else (frameBytes m.header m.servicePath m.serviceMethod meta m.payload, none)

/-- `io.ReadFull(r, buf[:k])` on a stream modelled as the list of bytes
still to be read: delivers the first `k` bytes, or fails after consuming
whatever was available. -/
def readFull (k : Nat) (s : List Nat) : Option (List Nat) × List Nat :=
  (if k ≤ s.length then some (s.take k) else none, s.drop k)

/-- The body-parsing section of `Message.Decode` (after the body buffer has
been read): cursor `n` walks the `totalLength`-byte buffer through the four
length-prefixed sections. The declared payload length is read and discarded
(`_ = l` in the source); the payload is the whole remainder `data[n:]`. -/
def parseFields (data : GoSlice) : GoResult BodyFields := do
  let s0 ← orPanic (data.sub 0 4)
  let spL ← orPanic s0.u32
  let spSlice ← orPanic (data.sub 4 (4 + spL))
  let n := 4 + spL
  let s1 ← orPanic (data.sub n (n + 4))
  let smL ← orPanic s1.u32
  let smSlice ← orPanic (data.sub (n + 4) (n + 4 + smL))
  let n2 := n + 4 + smL
  let s2 ← orPanic (data.sub n2 (n2 + 4))
  let metaL ← orPanic s2.u32
  let nEnd := n2 + 4 + metaL
  let md ←
    if 0 < metaL then do
      let ms ← orPanic (data.sub (n2 + 4) nEnd)
      decodeMetadata metaL ms
    else pure []
  let s3 ← orPanic (data.sub nEnd (nEnd + 4))
  let _payL ← orPanic s3.u32
  let pay ← orPanic (data.sub (nEnd + 4) data.len)
  pure ⟨spSlice.bytes, smSlice.bytes, md, pay.bytes⟩

/-- The tail of `Message.Decode`: parse the body fields, then decompress
the payload when the header carries a non-identity compression code
(`ErrUnsupportedCompressor` when no compressor is registered for it). -/
def parseBody (reg : Registry) (header : List Nat) (data : GoSlice) :
    GoResult RpcMessage := do
  let f ← parseFields data
  if compressTypeB header ≠ 0 then
    match reg (compressTypeB header) with
    | none => .err .unsupportedCompressor
    | some c =>
      match c.unzip f.payload with
      | .error e => .err (.compressorErr e)
      | .ok p => pure ⟨header, f.servicePath, f.serviceMethod, f.metadata, p⟩
  else
    pure ⟨header, f.servicePath, f.serviceMethod, f.metadata, f.payload⟩

/-- `Message.Decode` on a fresh message (the `Read` entry point): read one
byte and check the magic number, read the remaining 11 header bytes, read
the 4-byte total length, enforce `MaxRpcMessageLength` (`maxLen`, 0 means
unlimited), read the `totalLength`-byte body into a fresh buffer
(`len = cap = totalLength`), and parse it. Returns the result together
with the unconsumed remainder of the stream. -/
def decodeM (maxLen : Nat) (reg : Registry) (stream : List Nat) :
    GoResult RpcMessage × List Nat :=
  match readFull 1 stream with
  | (none, r) => (.err .eof, r)
  | (some b0, r1) =>
    if checkMagicNumber b0 = false then (.err .wrongMagic, r1)
    else
      match readFull 11 r1 with
      | (none, r2) => (.err .eof, r2)
      | (some h11, r2) =>
        let header := b0 ++ h11
        match readFull 4 r2 with
        | (none, r3) => (.err .eof, r3)
        | (some lb, r3) =>
          let l := beU32 lb
          if 0 < maxLen ∧ maxLen < l then (.err .messageTooLong, r3)
          else
            match readFull l r3 with
            | (none, r4) => (.err .eof, r4)
            | (some body, r4) => (parseBody reg header ⟨body, 0, l⟩, r4)

/-! ## Views into a buffer, and the encode/decode agreement lemmas -/

/-- `seg` is exactly what the buffer holds starting at position `p`. -/
def viewOk (buf : List Nat) (p : Nat) (seg : List Nat) : Prop :=
  (buf.drop p).take seg.length = seg

theorem viewOk_nil (buf : List Nat) (p : Nat) : viewOk buf p [] := rfl

theorem viewOk_append {buf : List Nat} {p : Nat} {A B : List Nat}
    (h : viewOk buf p (A ++ B)) :
    viewOk buf p A ∧ viewOk buf (p + A.length) B := by
  unfold viewOk at *
  constructor
  · have h1 := congrArg (List.take A.length) h
    rw [List.take_take, List.take_left] at h1
    have hmin : min A.length (A ++ B).length = A.length := by
      simp [List.length_append]
    rwa [hmin] at h1
  · have h2 := congrArg (List.drop A.length) h
    rw [List.drop_take, List.drop_left, List.drop_drop] at h2
    have harith : (A ++ B).length - A.length = B.length := by
      simp [List.length_append]
    rwa [harith] at h2

@[simp] theorem u32be_length (x : Nat) : (u32be x).length = 4 := rfl

theorem beU32_u32be (x : Nat) : beU32 (u32be x) = x % U32M := by
  unfold beU32 u32be U32M
  simp only [List.foldl_cons, List.foldl_nil]
  omega

theorem u32add_small {a b : Nat} (h : a + b < U32M) : u32add a b = a + b := by
  unfold u32add U32M at *
  omega

theorem u32sub_small {a b : Nat} (hba : b ≤ a) (h : a < U32M) : u32sub a b = a - b := by
  unfold u32sub U32M at *
  omega

theorem encMeta_cons (k v : List Nat) (rest : MetaMap) :
    encMeta ((k, v) :: rest) =
      u32be k.length ++ (k ++ (u32be v.length ++ (v ++ encMeta rest))) := by
  simp [encMeta, encPair, List.append_assoc]

theorem encMeta_cons_length (k v : List Nat) (rest : MetaMap) :
    (encMeta ((k, v) :: rest)).length =
      8 + k.length + v.length + (encMeta rest).length := by
  simp [encMeta_cons, List.length_append]
  omega

/-- Folding Go map assignment over the decoded pairs. -/
def foldInsert (acc : MetaMap) (kvs : MetaMap) : MetaMap :=
  kvs.foldl (fun m kv => mapInsert m kv.1 kv.2) acc

/-- Running the `decodeMetadata` loop over a buffer region holding a
well-formed `encodeMetadata` image decodes exactly the encoded pairs
(inserted in order into the accumulator map). -/
theorem decodeMetadataLoop_encMeta (kvs : MetaMap) :
    ∀ (buf : List Nat) (off l n : Nat) (acc : MetaMap),
      viewOk buf (off + n) (encMeta kvs) →
      n + (encMeta kvs).length = l →
      off + l ≤ buf.length →
      l < U32M →
      decodeMetadataLoop l ⟨buf, off, l⟩ acc n = .ok (foldInsert acc kvs) := by
  induction kvs with
  | nil =>
    intro buf off l n acc hview hlen hcap hltM
    have hnl : ¬ n < l := by simp [encMeta] at hlen; omega
    rw [decodeMetadataLoop]
    simp [hnl, foldInsert]
  | cons kv rest ih =>
    obtain ⟨k, v⟩ := kv
    intro buf off l n acc hview hlen hcap hltM
    have hM : U32M = 4294967296 := rfl
    rw [encMeta_cons] at hview
    rw [encMeta_cons_length] at hlen
    obtain ⟨h1v, hr1⟩ := viewOk_append hview
    rw [u32be_length] at hr1
    obtain ⟨h2v, hr2⟩ := viewOk_append hr1
    obtain ⟨h3v, hr3⟩ := viewOk_append hr2
    rw [u32be_length] at hr3
    obtain ⟨h4v, h5v⟩ := viewOk_append hr3
    -- cursor equations
    have hN1 : mdN1 n = n + 4 := by
      unfold mdN1; exact u32add_small (by omega)
    have hSl : mdSl ⟨buf, off, l⟩ n = k.length := by
      unfold mdSl rdU32
      rw [hN1]
      simp only [sliceAt, GoSlice.bytes]
      rw [show n + 4 - n = 4 from by omega, List.take_take]
      norm_num
      have h1v' : (buf.drop (off + n)).take 4 = u32be k.length := by
        have := h1v; unfold viewOk at this; rwa [u32be_length] at this
      rw [h1v', beU32_u32be, hM]
      omega
    have hN2 : mdN2 ⟨buf, off, l⟩ n = n + 4 + k.length := by
      unfold mdN2; rw [hN1, hSl]; exact u32add_small (by omega)
    have hN3 : mdN3 ⟨buf, off, l⟩ n = n + 4 + k.length + 4 := by
      unfold mdN3; rw [hN2]; exact u32add_small (by omega)
    have hSl2 : mdSl2 ⟨buf, off, l⟩ n = v.length := by
      unfold mdSl2 rdU32
      rw [hN2, hN3]
      simp only [sliceAt, GoSlice.bytes]
      rw [show n + 4 + k.length + 4 - (n + 4 + k.length) = 4 from by omega, List.take_take]
      norm_num
      have h3v' : (buf.drop (off + n + 4 + k.length)).take 4 = u32be v.length := by
        have := h3v; unfold viewOk at this; rwa [u32be_length] at this
      rw [show off + (n + 4 + k.length) = off + n + 4 + k.length from by omega]
      rw [h3v', beU32_u32be, hM]
      omega
    have hN4 : mdN4 ⟨buf, off, l⟩ n = n + 4 + k.length + 4 + v.length := by
      unfold mdN4; rw [hN3, hSl2]; exact u32add_small (by omega)
    have hcapv : GoSlice.cap ⟨buf, off, l⟩ = buf.length - off := rfl
    -- the key and value bytes
    have hkb : (sliceAt ⟨buf, off, l⟩ (mdN1 n) (mdN2 ⟨buf, off, l⟩ n)).bytes = k := by
      rw [hN1, hN2]
      simp only [sliceAt, GoSlice.bytes]
      rw [show n + 4 + k.length - (n + 4) = k.length from by omega,
        show off + (n + 4) = off + n + 4 from by omega]
      exact h2v
    have hvb : (sliceAt ⟨buf, off, l⟩ (mdN3 ⟨buf, off, l⟩ n)
        (mdN4 ⟨buf, off, l⟩ n)).bytes = v := by
      rw [hN3, hN4]
      simp only [sliceAt, GoSlice.bytes]
      rw [show n + 4 + k.length + 4 + v.length - (n + 4 + k.length + 4) = v.length
          from by omega,
        show off + (n + 4 + k.length + 4) = off + n + 4 + k.length + 4 from by omega]
      exact h4v
    -- unfold one loop iteration
    rw [decodeMetadataLoop]
    rw [dif_pos (show n < l from by omega)]
    rw [dif_pos (show n ≤ mdN1 n ∧ mdN1 n ≤ GoSlice.cap ⟨buf, off, l⟩ from by
      rw [hN1, hcapv]; omega)]
    rw [if_pos (show 4 ≤ (sliceAt ⟨buf, off, l⟩ n (mdN1 n)).len from by
      rw [hN1]; simp [sliceAt])]
    rw [if_neg (show ¬ mdN2 ⟨buf, off, l⟩ n > u32sub l 4 from by
      rw [hN2, u32sub_small (by omega) (by omega)]; omega)]
    rw [dif_pos (show mdN1 n ≤ mdN2 ⟨buf, off, l⟩ n ∧
        mdN2 ⟨buf, off, l⟩ n ≤ GoSlice.cap ⟨buf, off, l⟩ from by
      rw [hN1, hN2, hcapv]; omega)]
    rw [dif_pos (show mdN2 ⟨buf, off, l⟩ n ≤ mdN3 ⟨buf, off, l⟩ n ∧
        mdN3 ⟨buf, off, l⟩ n ≤ GoSlice.cap ⟨buf, off, l⟩ from by
      rw [hN2, hN3, hcapv]; omega)]
    rw [if_pos (show 4 ≤ (sliceAt ⟨buf, off, l⟩ (mdN2 ⟨buf, off, l⟩ n)
        (mdN3 ⟨buf, off, l⟩ n)).len from by
      rw [hN2, hN3]; simp [sliceAt])]
    rw [if_neg (show ¬ mdN4 ⟨buf, off, l⟩ n > l from by rw [hN4]; omega)]
    rw [dif_pos (show mdN3 ⟨buf, off, l⟩ n ≤ mdN4 ⟨buf, off, l⟩ n ∧
        mdN4 ⟨buf, off, l⟩ n ≤ GoSlice.cap ⟨buf, off, l⟩ from by
      rw [hN3, hN4, hcapv]; omega)]
    rw [hkb, hvb, hN4]
    have h5v' : viewOk buf (off + (n + 4 + k.length + 4 + v.length)) (encMeta rest) := by
      rw [show off + (n + 4 + k.length + 4 + v.length)
          = off + n + 4 + k.length + 4 + v.length from by omega]
      exact h5v
    rw [ih buf off l (n + 4 + k.length + 4 + v.length) (mapInsert acc k v) h5v'
      (by omega) hcap hltM]
    simp [foldInsert]

/-- `decodeMetadata` on a slice holding exactly an `encodeMetadata` image
(with any capacity tail behind it) yields the encoded pairs. -/
theorem decodeMetadata_encMeta (kvs : MetaMap) (buf : List Nat) (off : Nat)
    (hview : viewOk buf off (encMeta kvs))
    (hcap : off + (encMeta kvs).length ≤ buf.length)
    (hltM : (encMeta kvs).length < U32M) :
    decodeMetadata (encMeta kvs).length ⟨buf, off, (encMeta kvs).length⟩ =
      .ok (foldInsert [] kvs) := by
  unfold decodeMetadata
  exact decodeMetadataLoop_encMeta kvs buf off (encMeta kvs).length 0 []
    (by simpa using hview) (by omega) hcap hltM

/-- Inserting a fresh key appends the pair at the end of the map. -/
theorem mapInsert_not_mem {m : MetaMap} {k : List Nat} (v : List Nat)
    (h : k ∉ m.map Prod.fst) : mapInsert m k v = m ++ [(k, v)] := by
  induction m with
  | nil => rfl
  | cons kv rest ih =>
    obtain ⟨k', v'⟩ := kv
    simp only [List.map_cons, List.mem_cons] at h
    push_neg at h
    have hne : ¬ (k' = k) := fun hh => h.1 hh.symm
    simp only [mapInsert, if_neg hne, ih h.2, List.cons_append]

/-- Folding Go map insertion over pairs with distinct keys, all fresh for
the accumulator, appends them in order. -/
theorem foldInsert_append (kvs : MetaMap) :
    ∀ acc : MetaMap, (kvs.map Prod.fst).Nodup →
      (∀ k, k ∈ kvs.map Prod.fst → k ∉ acc.map Prod.fst) →
      foldInsert acc kvs = acc ++ kvs := by
  induction kvs with
  | nil => intro acc _ _; simp [foldInsert]
  | cons kv rest ih =>
    obtain ⟨k, v⟩ := kv
    intro acc hnd hdisj
    simp only [List.map_cons, List.nodup_cons] at hnd
    have hkacc : k ∉ acc.map Prod.fst := hdisj k (by simp)
    have hstep : foldInsert acc ((k, v) :: rest) = foldInsert (mapInsert acc k v) rest := by
      simp [foldInsert]
    rw [hstep, ih (mapInsert acc k v) hnd.2]
    · rw [mapInsert_not_mem v hkacc, List.append_assoc]
      rfl
    · intro k' hk'
      rw [mapInsert_not_mem v hkacc]
      simp only [List.map_append, List.mem_append, List.map_cons, List.map_nil,
        List.mem_singleton]
      push_neg
      refine ⟨hdisj k' (by simp [hk']), ?_⟩
      intro hkk
      exact hnd.1 (hkk ▸ hk')

/-- A map with distinct keys decodes to itself. -/
theorem foldInsert_nil_eq (kvs : MetaMap) (hnd : (kvs.map Prod.fst).Nodup) :
    foldInsert [] kvs = kvs := by
  rw [foldInsert_append kvs [] hnd (by simp)]
  rfl

/-- An empty `encodeMetadata` image means there were no pairs. -/
theorem encMeta_nil_of_length (kvs : MetaMap) (h : (encMeta kvs).length = 0) :
    kvs = [] := by
  cases kvs with
  | nil => rfl
  | cons kv rest =>
    obtain ⟨k, v⟩ := kv
    rw [encMeta_cons_length] at h
    omega

theorem viewOk_shift {buf : List Nat} {p : Nat} {seg : List Nat}
    (h : viewOk buf p seg) {q : Nat} (hpq : p = q) : viewOk buf q seg := hpq ▸ h

/-- `GoSlice.sub` on a whole-buffer slice, with the resulting offset and
length given in normalized form. -/
theorem subPiece (body : List Nat) (L a b c : Nat) (hab : a ≤ b) (hbL : b ≤ L)
    (hL : L ≤ body.length) (hc : b - a = c) :
    GoSlice.sub ⟨body, 0, L⟩ a b = some ⟨body, a, c⟩ := by
  rw [GoSlice.sub_ok _ a b hab (by simp [GoSlice.cap]; omega)]
  simp [hc]

/-- Reading a 4-byte length field through a view. -/
theorem u32Piece (body : List Nat) (a x : Nat) (hview : viewOk body a (u32be x))
    (hx : x < U32M) : GoSlice.u32 ⟨body, a, 4⟩ = some x := by
  rw [GoSlice.u32_ok _ (by norm_num)]
  unfold viewOk at hview
  rw [u32be_length] at hview
  have hb : (GoSlice.mk body a 4).bytes = u32be x := hview
  rw [hb, show (u32be x).take 4 = u32be x from
    List.take_all_of_le (by rw [u32be_length]), beU32_u32be, Nat.mod_eq_of_lt hx]

/-- Reading a section's bytes through a view. -/
theorem bytesPiece (body : List Nat) (a : Nat) (seg : List Nat)
    (hview : viewOk body a seg) : (GoSlice.mk body a seg.length).bytes = seg := hview

/-- The body of a frame: four length-prefixed sections, with the declared
payload-length field `vlen` independent of the actual payload bytes. -/
def bodyBytes (sp sm meta : List Nat) (vlen : Nat) (pay : List Nat) : List Nat :=
  u32be sp.length ++ (sp ++ (u32be sm.length ++ (sm ++
    (u32be meta.length ++ (meta ++ (u32be vlen ++ pay))))))

theorem bodyBytes_length (sp sm meta : List Nat) (vlen : Nat) (pay : List Nat) :
    (bodyBytes sp sm meta vlen pay).length =
      16 + sp.length + sm.length + meta.length + pay.length := by
  simp [bodyBytes, List.length_append]
  omega

/-- `frameBytes` is the header, the total length and the body. -/
theorem frameBytes_eq (hd sp sm meta pay : List Nat) :
    frameBytes hd sp sm meta pay =
      hd ++ (u32be ((4 + sp.length) + (4 + sm.length) + (4 + meta.length) +
        (4 + pay.length)) ++ bodyBytes sp sm meta pay.length pay) := by
  simp [frameBytes, bodyBytes, List.append_assoc]

/-- Parsing a well-formed body recovers the path, the method, the decoded
metadata map and, as payload, everything after the payload-length field —
whatever value `vlen` the payload-length field declares. -/
theorem parseFields_frame (sp sm : List Nat) (kvs : MetaMap) (vlen : Nat)
    (pay : List Nat) (hvlen : vlen < U32M)
    (hLM : 16 + sp.length + sm.length + (encMeta kvs).length + pay.length < U32M) :
    parseFields ⟨bodyBytes sp sm (encMeta kvs) vlen pay, 0,
      16 + sp.length + sm.length + (encMeta kvs).length + pay.length⟩ =
      .ok ⟨sp, sm, foldInsert [] kvs, pay⟩ := by
  have hlen_body : (bodyBytes sp sm (encMeta kvs) vlen pay).length =
      16 + sp.length + sm.length + (encMeta kvs).length + pay.length :=
    bodyBytes_length sp sm (encMeta kvs) vlen pay
  -- views of the eight sections
  have v_all : viewOk (bodyBytes sp sm (encMeta kvs) vlen pay) 0
      (bodyBytes sp sm (encMeta kvs) vlen pay) := by
    unfold viewOk
    rw [List.drop_zero]
    exact List.take_of_length_le (le_refl _)
  have c1 := @viewOk_append (bodyBytes sp sm (encMeta kvs) vlen pay) 0
    (u32be sp.length)
    (sp ++ (u32be sm.length ++ (sm ++ (u32be (encMeta kvs).length ++
      (encMeta kvs ++ (u32be vlen ++ pay)))))) v_all
  have w0 := c1.1
  have r1 := viewOk_shift c1.2 (by rw [u32be_length])
  have c2 := viewOk_append r1
  have w1 := c2.1
  have r2 := c2.2
  have c3 := viewOk_append r2
  have w2 := c3.1
  have r3 := viewOk_shift c3.2 (by rw [u32be_length])
  have c4 := viewOk_append r3
  have w3 := c4.1
  have r4 := c4.2
  have c5 := viewOk_append r4
  have w4 := c5.1
  have r5 := viewOk_shift c5.2 (by rw [u32be_length])
  have c6 := viewOk_append r5
  have w5 := c6.1
  have r6 := c6.2
  have c7 := viewOk_append r6
  have w6 := c7.1
  have w7 := viewOk_shift c7.2 (by rw [u32be_length])
  clear v_all c1 c2 c3 c4 c5 c6 c7 r1 r2 r3 r4 r5 r6
  simp only [parseFields, GoResult.monad_bind_eq_bind, GoResult.pure_eq_ok]
  rw [subPiece _ _ 0 4 4 (by omega) (by omega) (by omega) (by omega)]
  simp only [orPanic_some, GoResult.bind_ok]
  rw [u32Piece _ 0 sp.length w0 (by omega)]
  simp only [orPanic_some, GoResult.bind_ok]
  rw [subPiece _ _ 4 (4 + sp.length) sp.length (by omega) (by omega) (by omega)
    (by omega)]
  simp only [orPanic_some, GoResult.bind_ok]
  rw [subPiece _ _ (4 + sp.length) (4 + sp.length + 4) 4 (by omega) (by omega)
    (by omega) (by omega)]
  simp only [orPanic_some, GoResult.bind_ok]
  rw [u32Piece _ (4 + sp.length) sm.length w2 (by omega)]
  simp only [orPanic_some, GoResult.bind_ok]
  rw [subPiece _ _ (4 + sp.length + 4) (4 + sp.length + 4 + sm.length) sm.length
    (by omega) (by omega) (by omega) (by omega)]
  simp only [orPanic_some, GoResult.bind_ok]
  rw [subPiece _ _ (4 + sp.length + 4 + sm.length) (4 + sp.length + 4 + sm.length + 4)
    4 (by omega) (by omega) (by omega) (by omega)]
  simp only [orPanic_some, GoResult.bind_ok]
  rw [u32Piece _ (4 + sp.length + 4 + sm.length) (encMeta kvs).length w4 (by omega)]
  simp only [orPanic_some, GoResult.bind_ok]
  by_cases hmeta : 0 < (encMeta kvs).length
  · rw [if_pos hmeta]
    rw [subPiece _ _ (4 + sp.length + 4 + sm.length + 4)
      (4 + sp.length + 4 + sm.length + 4 + (encMeta kvs).length) (encMeta kvs).length
      (by omega) (by omega) (by omega) (by omega)]
    simp only [orPanic_some, GoResult.bind_ok]
    rw [decodeMetadata_encMeta kvs _ _ w5 (by omega) (by omega)]
    simp only [GoResult.bind_ok]
    rw [subPiece _ _ (4 + sp.length + 4 + sm.length + 4 + (encMeta kvs).length)
      (4 + sp.length + 4 + sm.length + 4 + (encMeta kvs).length + 4) 4
      (by omega) (by omega) (by omega) (by omega)]
    simp only [orPanic_some, GoResult.bind_ok]
    rw [u32Piece _ (4 + sp.length + 4 + sm.length + 4 + (encMeta kvs).length) vlen w6
      (by omega)]
    simp only [orPanic_some, GoResult.bind_ok]
    rw [subPiece _ _ (4 + sp.length + 4 + sm.length + 4 + (encMeta kvs).length + 4)
      (16 + sp.length + sm.length + (encMeta kvs).length + pay.length) pay.length
      (by omega) (by omega) (by omega) (by omega)]
    simp only [orPanic_some, GoResult.bind_ok]
    rw [bytesPiece _ 4 sp w1, bytesPiece _ (4 + sp.length + 4) sm w3,
      bytesPiece _ (4 + sp.length + 4 + sm.length + 4 + (encMeta kvs).length + 4)
        pay w7]
  · rw [if_neg hmeta]
    have hkvs : kvs = [] := encMeta_nil_of_length kvs (by omega)
    subst hkvs
    try simp only [GoResult.bind_ok]
    rw [subPiece _ _ (4 + sp.length + 4 + sm.length + 4 + (encMeta []).length)
      (4 + sp.length + 4 + sm.length + 4 + (encMeta []).length + 4) 4
      (by omega) (by omega) (by omega) (by omega)]
    simp only [orPanic_some, GoResult.bind_ok]
    rw [u32Piece _ (4 + sp.length + 4 + sm.length + 4 + (encMeta []).length) vlen
      w6 (by omega)]
    simp only [orPanic_some, GoResult.bind_ok]
    rw [subPiece _ _ (4 + sp.length + 4 + sm.length + 4 + (encMeta []).length + 4)
      (16 + sp.length + sm.length + (encMeta []).length + pay.length) pay.length
      (by omega) (by omega) (by omega) (by omega)]
    simp only [orPanic_some, GoResult.bind_ok]
    rw [bytesPiece _ 4 sp w1, bytesPiece _ (4 + sp.length + 4) sm w3]
    rw [bytesPiece _ (4 + sp.length + 4 + sm.length + 4 + (encMeta []).length + 4)
      pay w7]
    simp [foldInsert]

theorem readFull_append (k : Nat) (A B : List Nat) (hk : A.length = k) :
    readFull k (A ++ B) = (some A, B) := by
  subst hk
  unfold readFull
  rw [if_pos (by simp), List.take_left, List.drop_left]

theorem readFull_exact (k : Nat) (B : List Nat) (hk : B.length = k) :
    readFull k B = (some B, []) := by
  subst hk
  unfold readFull
  rw [if_pos (le_refl _), List.take_of_length_le (le_refl _), List.drop_length]

/-- `Decode` on a stream made of a valid 12-byte header, a length field
within the limit and the announced body: consumes everything and hands the
body to the parsing section. -/
theorem decodeM_frame_parse (maxLen : Nat) (reg : Registry) (hd body : List Nat)
    (L : Nat) (hhd : hd.length = 12) (hmagic : hd.getD 0 0 = 8)
    (hL : L = body.length) (hLM : L < U32M)
    (hmax : ¬ (0 < maxLen ∧ maxLen < L)) :
    decodeM maxLen reg (hd ++ (u32be L ++ body)) =
      (parseBody reg hd ⟨body, 0, L⟩, []) := by
  cases hd with
  | nil => simp at hhd
  | cons h0 hrest =>
    have h08 : h0 = 8 := by simpa using hmagic
    subst h08
    have hr11 : hrest.length = 11 := by simpa using hhd
    unfold decodeM
    rw [show (8 :: hrest) ++ (u32be L ++ body) = [8] ++ (hrest ++ (u32be L ++ body))
      from by simp]
    rw [readFull_append 1 [8] _ rfl]
    dsimp only
    rw [if_neg (by decide)]
    rw [readFull_append 11 hrest _ hr11]
    dsimp only
    rw [readFull_append 4 (u32be L) _ (u32be_length L)]
    dsimp only
    rw [beU32_u32be, Nat.mod_eq_of_lt hLM]
    rw [if_neg hmax]
    rw [readFull_exact L body hL.symm]
    dsimp only
    rw [List.singleton_append]

/-- `Decode` with a declared total length above a positive configured
maximum: fails with `ErrRpcMessageTooLong` right after the length field,
leaving the rest of the stream (the body) unread. -/
theorem decodeM_too_long (maxLen : Nat) (reg : Registry) (hd tail : List Nat)
    (L : Nat) (hhd : hd.length = 12) (hmagic : hd.getD 0 0 = 8)
    (hLM : L < U32M) (hpos : 0 < maxLen) (hbig : maxLen < L) :
    decodeM maxLen reg (hd ++ (u32be L ++ tail)) = (.err .messageTooLong, tail) := by
  cases hd with
  | nil => simp at hhd
  | cons h0 hrest =>
    have h08 : h0 = 8 := by simpa using hmagic
    subst h08
    have hr11 : hrest.length = 11 := by simpa using hhd
    unfold decodeM
    rw [show (8 :: hrest) ++ (u32be L ++ tail) = [8] ++ (hrest ++ (u32be L ++ tail))
      from by simp]
    rw [readFull_append 1 [8] _ rfl]
    dsimp only
    rw [if_neg (by decide)]
    rw [readFull_append 11 hrest _ hr11]
    dsimp only
    rw [readFull_append 4 (u32be L) _ (u32be_length L)]
    dsimp only
    rw [beU32_u32be, Nat.mod_eq_of_lt hLM]
    rw [if_pos ⟨hpos, hbig⟩]

/-- `EncodeSlicePointer` written as header ++ length field ++ body. -/
theorem encodeSlicePointer_frame (reg : Registry) (m : RpcMessage) :
    encodeSlicePointer reg m =
      (encCompress reg m).1 ++
        (u32be ((4 + m.servicePath.length) + (4 + m.serviceMethod.length) +
          (4 + (encMeta m.metadata).length) + (4 + (encCompress reg m).2.length)) ++
         bodyBytes m.servicePath m.serviceMethod (encMeta m.metadata)
           (encCompress reg m).2.length (encCompress reg m).2) := by
  unfold encodeSlicePointer
  rw [frameBytes_eq]

/-- `Decode` when the announced total length wraps (`uint32` truncation):
the declared length field carries `T mod 2^32`, and only that many body
bytes are consumed and parsed. -/
theorem decodeM_frame_wrap (reg : Registry) (hd body : List Nat) (T : Nat)
    (hhd : hd.length = 12) (hmagic : hd.getD 0 0 = 8)
    (hTle : T % U32M ≤ body.length) :
    decodeM 0 reg (hd ++ (u32be T ++ body)) =
      (parseBody reg hd ⟨body.take (T % U32M), 0, T % U32M⟩,
        body.drop (T % U32M)) := by
  cases hd with
  | nil => simp at hhd
  | cons h0 hrest =>
    have h08 : h0 = 8 := by simpa using hmagic
    subst h08
    have hr11 : hrest.length = 11 := by simpa using hhd
    unfold decodeM
    rw [show (8 :: hrest) ++ (u32be T ++ body) = [8] ++ (hrest ++ (u32be T ++ body))
      from by simp]
    rw [readFull_append 1 [8] _ rfl]
    dsimp only
    rw [if_neg (by decide)]
    rw [readFull_append 11 hrest _ hr11]
    dsimp only
    rw [readFull_append 4 (u32be T) _ (u32be_length T)]
    dsimp only
    rw [beU32_u32be]
    rw [if_neg (by simp)]
    unfold readFull
    rw [if_pos hTle]
    dsimp only
    rw [List.singleton_append]

/-- Round trip of `EncodeSlicePointer` and `Decode` for every message
whose encoded total length (with the on-wire payload, compressed or not)
stays below 2^32; for non-identity compression codes the registered
compressor must compress successfully and `Unzip` must restore what `Zip`
produced. -/
theorem roundtrip_bounded (reg : Registry) (m : RpcMessage)
    (hhd : m.header.length = 12) (hmagic : m.header.getD 0 0 = 8)
    (hnd : (m.metadata.map Prod.fst).Nodup)
    (hcomp : compressTypeB m.header = 0 ∨
      (∃ c, reg (compressTypeB m.header) = some c ∧
        ∃ zp, c.zip m.payload = .ok zp ∧ c.unzip zp = .ok m.payload))
    (hbound : 16 + m.servicePath.length + m.serviceMethod.length +
      (encMeta m.metadata).length + (encCompress reg m).2.length < U32M) :
    decodeM 0 reg (encodeSlicePointer reg m) =
      (.ok ⟨m.header, m.servicePath, m.serviceMethod, m.metadata, m.payload⟩, []) := by
  by_cases hct : compressTypeB m.header = 0
  · have hence : encCompress reg m = (m.header, m.payload) := by
      unfold encCompress
      rw [if_neg (by simp [hct])]
    have hfst : (encCompress reg m).1 = m.header := by rw [hence]
    have hsnd : (encCompress reg m).2 = m.payload := by rw [hence]
    rw [hsnd] at hbound
    rw [encodeSlicePointer_frame, hfst, hsnd]
    rw [decodeM_frame_parse 0 reg m.header _ _ hhd hmagic
      (by rw [bodyBytes_length]; omega) (by omega) (by simp)]
    unfold parseBody
    rw [show (4 + m.servicePath.length) + (4 + m.serviceMethod.length) +
        (4 + (encMeta m.metadata).length) + (4 + m.payload.length) =
        16 + m.servicePath.length + m.serviceMethod.length +
        (encMeta m.metadata).length + m.payload.length from by omega]
    rw [parseFields_frame m.servicePath m.serviceMethod m.metadata m.payload.length
      m.payload (by omega) (by omega)]
    simp only [GoResult.monad_bind_eq_bind, GoResult.bind_ok]
    rw [if_neg (by simp [hct])]
    rw [foldInsert_nil_eq m.metadata hnd]
    rfl
  · rcases hcomp with hcomp | ⟨c, hc, zp, hzip, hunzip⟩
    · exact absurd hcomp hct
    have hence : encCompress reg m = (m.header, zp) := by
      unfold encCompress
      rw [if_pos hct, hc]
      dsimp only
      rw [hzip]
    have hfst : (encCompress reg m).1 = m.header := by rw [hence]
    have hsnd : (encCompress reg m).2 = zp := by rw [hence]
    rw [hsnd] at hbound
    rw [encodeSlicePointer_frame, hfst, hsnd]
    rw [decodeM_frame_parse 0 reg m.header _ _ hhd hmagic
      (by rw [bodyBytes_length]; omega) (by omega) (by simp)]
    unfold parseBody
    rw [show (4 + m.servicePath.length) + (4 + m.serviceMethod.length) +
        (4 + (encMeta m.metadata).length) + (4 + zp.length) =
        16 + m.servicePath.length + m.serviceMethod.length +
        (encMeta m.metadata).length + zp.length from by omega]
    rw [parseFields_frame m.servicePath m.serviceMethod m.metadata zp.length
      zp (by omega) (by omega)]
    simp only [GoResult.monad_bind_eq_bind, GoResult.bind_ok]
    rw [if_pos hct, hc]
    dsimp only
    rw [hunzip]
    rw [foldInsert_nil_eq m.metadata hnd]
    rfl

/-! ## Concrete registries and messages used by the claim instances -/

/-- A registry with no compressors at all (identity needs none: the
encoder and decoder skip compression entirely for code 0). -/
def regEmpty : Registry := fun _ => none

/-- A concrete invertible compressor standing in for gzip: `Zip` prepends
a byte, `Unzip` removes it, so `Unzip (Zip p) = p`. -/
def invCompressor : Compressor :=
  ⟨fun p => .ok (0 :: p), fun p => .ok (p.drop 1)⟩

/-- A registry carrying `invCompressor` under the gzip code 1. -/
def regGzip : Registry := fun ct => if ct = 1 then some invCompressor else none

/-- A header with compression code 1 (gzip): flags byte `0b00000100`. -/
def gzipHeader : List Nat := [8, 0, 4, 0, 0, 0, 0, 0, 0, 0, 0, 0]

/-- A sample message with gzip compression and one metadata pair. -/
def mGzipSample : RpcMessage :=
  ⟨gzipHeader, [69, 99], [67], [([107], [118])], [1, 2, 3]⟩

/-- A message whose payload is 2^32 bytes long: the payload-length and
total-length `uint32` fields both wrap to small values when it is encoded. -/
def mOversized : RpcMessage := ⟨freshHeader, [], [], [], List.replicate U32M 0⟩

/-- C1: for arbitrary path/method/metadata/payload and every supported
compression code (identity, or gzip with a working compressor),
`Decode (Encode m)` reproduces the service path, service method, metadata
and payload exactly — amended with the bound that the encoded total
length must be below 2^32, which the `uint32` length fields require
(see the counterexample at a 2^32-byte payload). -/
theorem c1_roundtrip_amended (reg : Registry) (m : RpcMessage)
    (hhd : m.header.length = 12) (hmagic : m.header.getD 0 0 = 8)
    (hnd : (m.metadata.map Prod.fst).Nodup)
    (hcomp : compressTypeB m.header = 0 ∨
      (∃ c, reg (compressTypeB m.header) = some c ∧
        ∃ zp, c.zip m.payload = .ok zp ∧ c.unzip zp = .ok m.payload))
    (hbound : 16 + m.servicePath.length + m.serviceMethod.length +
      (encMeta m.metadata).length + (encCompress reg m).2.length < U32M) :
    decodeM 0 reg (encodeSlicePointer reg m) =
      (.ok ⟨m.header, m.servicePath, m.serviceMethod, m.metadata, m.payload⟩, []) :=
  roundtrip_bounded reg m hhd hmagic hnd hcomp hbound

/-- Witness for C1: a concrete gzip-compressed message with metadata
round trips through encode/decode. -/
theorem c1_roundtrip_amended_witness :
    decodeM 0 regGzip (encodeSlicePointer regGzip mGzipSample) =
      (.ok ⟨gzipHeader, [69, 99], [67], [([107], [118])], [1, 2, 3]⟩, []) :=
  c1_roundtrip_amended regGzip mGzipSample (by decide) (by decide) (by decide)
    (Or.inr ⟨invCompressor, rfl, ⟨[0, 1, 2, 3], rfl, rfl⟩⟩) (by decide)

/-- Counterexample for C1 as frozen (which admits no length bound): for
the message whose payload is `2^32` zero bytes, the encoded total-length
field wraps, `Decode (Encode m)` succeeds but returns an empty payload,
so the round trip does not reproduce the payload. -/
theorem c1_counterexample :
    decodeM 0 regEmpty (encodeSlicePointer regEmpty mOversized) =
      (.ok ⟨freshHeader, [], [], [], []⟩, List.replicate U32M 0) ∧
    mOversized.payload ≠ [] := by
  constructor
  · have hence : encCompress regEmpty mOversized =
        (mOversized.header, mOversized.payload) := by
      unfold encCompress
      rw [if_neg (by decide)]
    have hfst : (encCompress regEmpty mOversized).1 = mOversized.header := by
      rw [hence]
    have hsnd : (encCompress regEmpty mOversized).2 = List.replicate U32M 0 := by
      rw [hence]; rfl
    rw [encodeSlicePointer_frame, hfst, hsnd]
    rw [show mOversized.servicePath = [] from rfl,
      show mOversized.serviceMethod = [] from rfl,
      show encMeta mOversized.metadata = [] from rfl,
      show mOversized.header = freshHeader from rfl,
      List.length_replicate]
    rw [show (4 + ([] : List Nat).length) + (4 + ([] : List Nat).length) +
        (4 + ([] : List Nat).length) + (4 + U32M) = 16 + U32M from by simp; omega]
    have hmod : (16 + U32M) % U32M = 16 := by decide
    rw [decodeM_frame_wrap regEmpty freshHeader _ (16 + U32M) (by decide) (by decide)
      (by rw [bodyBytes_length, List.length_replicate, hmod]; omega)]
    rw [hmod]
    have hsplit : bodyBytes [] [] [] U32M (List.replicate U32M 0) =
        List.replicate 16 0 ++ List.replicate U32M 0 := by
      rw [show (List.replicate 16 (0 : Nat)) =
        [0, 0, 0, 0, 0, 0, 0, 0, 0, 0, 0, 0, 0, 0, 0, 0] from rfl]
      unfold bodyBytes
      rw [show u32be ([] : List Nat).length = [0, 0, 0, 0] from rfl,
        show u32be U32M = [0, 0, 0, 0] from rfl]
      simp only [List.cons_append, List.nil_append]
    rw [hsplit]
    rw [List.take_left' (by simp), List.drop_left' (by simp)]
    rw [show parseBody regEmpty freshHeader ⟨List.replicate 16 0, 0, 16⟩ =
        .ok ⟨freshHeader, [], [], [], []⟩ from by decide]
  · intro h
    have hlen0 := congrArg List.length h
    have h2 : U32M = 0 := by
      rw [show mOversized.payload = List.replicate U32M 0 from rfl,
        List.length_replicate] at hlen0
      simpa using hlen0
    exact absurd h2 (by decide)

/-- C9: `Decode` reads the declared 4-byte payload length but discards
it: for any declared value `vlen` whatsoever (agreeing with the actual
remainder or not), decoding succeeds and the payload is the entire
remainder of the body after the payload-length field. -/
theorem c9_payload_length_ignored (reg : Registry) (hd sp sm : List Nat)
    (kvs : MetaMap) (vlen : Nat) (pay : List Nat)
    (hhd : hd.length = 12) (hmagic : hd.getD 0 0 = 8)
    (hct : compressTypeB hd = 0) (hvlen : vlen < U32M)
    (hLM : 16 + sp.length + sm.length + (encMeta kvs).length + pay.length < U32M) :
    decodeM 0 reg (hd ++ (u32be (16 + sp.length + sm.length +
        (encMeta kvs).length + pay.length) ++ bodyBytes sp sm (encMeta kvs) vlen pay)) =
      (.ok ⟨hd, sp, sm, foldInsert [] kvs, pay⟩, []) := by
  rw [decodeM_frame_parse 0 reg hd _ _ hhd hmagic
    (by rw [bodyBytes_length]) (by omega) (by simp)]
  unfold parseBody
  rw [parseFields_frame sp sm kvs vlen pay hvlen hLM]
  simp only [GoResult.monad_bind_eq_bind, GoResult.bind_ok]
  rw [if_neg (by simp [hct])]
  rfl

/-- Witness for C9: a frame whose payload-length field declares 99 while
the actual remainder holds 2 bytes decodes without error, and the decoded
payload is the 2-byte remainder. -/
theorem c9_payload_length_ignored_witness :
    decodeM 0 regEmpty (freshHeader ++ (u32be (16 + 1 + 1 + 0 + 2) ++
        bodyBytes [5] [6] (encMeta []) 99 [7, 8])) =
      (.ok ⟨freshHeader, [5], [6], foldInsert [] [], [7, 8]⟩, []) := by
  have h := c9_payload_length_ignored regEmpty freshHeader [5] [6] [] 99 [7, 8]
    (by decide) (by decide) (by decide) (by decide) (by decide)
  simpa using h

/-- C3: with a positive configured maximum `maxLen` and a frame declaring
a total length above it, `Decode` fails with `ErrRpcMessageTooLong` right
after the 12-byte header and the 4-byte length field: the entire body
(the rest of the stream) is left unconsumed. -/
theorem c3_oversized_rejected (maxLen : Nat) (reg : Registry) (hd tail : List Nat)
    (L : Nat) (hhd : hd.length = 12) (hmagic : hd.getD 0 0 = 8)
    (hLM : L < U32M) (hpos : 0 < maxLen) (hbig : maxLen < L) :
    decodeM maxLen reg (hd ++ (u32be L ++ tail)) = (.err .messageTooLong, tail) :=
  decodeM_too_long maxLen reg hd tail L hhd hmagic hLM hpos hbig

/-- Witness for C3: limit 10, declared length 20 — the decode stops with
`ErrRpcMessageTooLong` and the 3 stream bytes after the length field are
still unread. -/
theorem c3_oversized_rejected_witness :
    decodeM 10 regEmpty (freshHeader ++ (u32be 20 ++ [1, 2, 3])) =
      (.err .messageTooLong, [1, 2, 3]) :=
  c3_oversized_rejected 10 regEmpty freshHeader [1, 2, 3] 20 (by decide) (by decide)
    (by decide) (by decide) (by decide)

/-- The spec's worked example: path "Echo", method "Call",
metadata {"k": "v"}, payload [1, 2], identity compression. -/
def c5Message : RpcMessage :=
  ⟨freshHeader, [69, 99, 104, 111], [67, 97, 108, 108], [([107], [118])], [1, 2]⟩

/-- Counterexample for C5 as frozen: the 4-byte total-length field of the
encoded example frame does not hold 34 (it holds 36: the spec's own
formula `(4+4)+(4+4)+(4+(4+1+4+1))+(4+2)` sums to 36). -/
theorem c5_counterexample :
    beU32 (((encodeSlicePointer regEmpty c5Message).drop 12).take 4) ≠ 34 := by
  decide

/-- C5, amended: encoding the example message produces a frame whose
4-byte total-length field equals 36 — the value of the spec's own
formula `(4+4)+(4+4)+(4+(4+1+4+1))+(4+2)` — and decoding the resulting
bytes yields exactly the original fields. -/
theorem c5_example_amended :
    beU32 (((encodeSlicePointer regEmpty c5Message).drop 12).take 4) = 36 ∧
    decodeM 0 regEmpty (encodeSlicePointer regEmpty c5Message) =
      (.ok ⟨freshHeader, [69, 99, 104, 111], [67, 97, 108, 108],
        [([107], [118])], [1, 2]⟩, []) := by
  constructor
  · decide
  · exact roundtrip_bounded regEmpty c5Message (by decide) (by decide) (by decide)
      (Or.inl (by decide)) (by decide)

/-! ## C2: metadata corruption handling -/

/-- C2, amended: when the declared metadata length `l` is at least one
4-byte length field and the first inner key length `sl` (read without
`uint32` wrap) would carry the cursor past `l - 4`, `decodeMetadata`
returns `ErrMetaKVMissing` after reading only the length field. Declared
lengths shorter than 4 bytes are NOT detected (see the counterexample:
the `l - 4` in the guard underflows in `uint32` arithmetic), so the
claim's parenthetical about them fails. -/
theorem c2_meta_overrun_detected (data : GoSlice) (l sl : Nat)
    (hlen : data.len = l) (hl4 : 4 ≤ l) (hlM : l < U32M) (hcap : l ≤ data.cap)
    (hsl : mdSl data 0 = sl) (hover : l - 4 < 4 + sl) (hnowrap : 4 + sl < U32M) :
    decodeMetadata l data = .err .metaKVMissing := by
  unfold decodeMetadata
  rw [decodeMetadataLoop]
  have hN1 : mdN1 0 = 4 := by
    unfold mdN1
    exact u32add_small (by norm_num [U32M])
  have hN2 : mdN2 data 0 = 4 + sl := by
    unfold mdN2
    rw [hN1, hsl]
    exact u32add_small hnowrap
  rw [dif_pos (show 0 < l from by omega)]
  rw [dif_pos (show 0 ≤ mdN1 0 ∧ mdN1 0 ≤ data.cap from by rw [hN1]; omega)]
  rw [if_pos (show 4 ≤ (sliceAt data 0 (mdN1 0)).len from by rw [hN1]; simp [sliceAt])]
  rw [if_pos (show mdN2 data 0 > u32sub l 4 from by
    rw [hN2, u32sub_small hl4 hlM]; omega)]

/-- Witness for C2 (amended): a metadata section declaring 8 bytes whose
first key length field says 10 is rejected with `ErrMetaKVMissing`. -/
theorem c2_meta_overrun_detected_witness :
    decodeMetadata 8 ⟨[0, 0, 0, 10, 0, 0, 0, 0], 0, 8⟩ = .err .metaKVMissing :=
  c2_meta_overrun_detected ⟨[0, 0, 0, 10, 0, 0, 0, 0], 0, 8⟩ 8 10 (by decide)
    (by decide) (by decide) (by decide) (by decide) (by decide) (by decide)

/-- Counterexample for C2 as frozen: a metadata section whose declared
length is 2 — shorter than one 4-byte length field, hence inconsistent —
makes `decodeMetadata` panic on the slice expression `data[0:4]` (capacity
2) instead of returning `ErrMetaKVMissing`: the `n+sl > l-4` guard cannot
catch it because `l-4` underflows in `uint32` arithmetic. -/
theorem c2_counterexample :
    decodeMetadata 2 ⟨[0, 0], 0, 2⟩ = .panic ∧
    (GoResult.panic : GoResult MetaMap) ≠ .err .metaKVMissing := by
  constructor
  · unfold decodeMetadata
    rw [decodeMetadataLoop]
    rw [dif_pos (by decide : (0 : Nat) < 2)]
    rw [dif_neg (by decide)]
  · decide

/-! ## C4: the two encode paths under compression failure -/

/-- C4: for every message carrying a non-identity compression code, if no
compressor is registered for that code or the compressor's `Zip` fails,
`EncodeSlicePointer` succeeds by downgrading — it clears the compression
code in the emitted header and frames the original payload — while
`WriteTo` fails, returning `ErrUnsupportedCompressor` (respectively the
compressor's error) with only the 12 header bytes written. -/
theorem c4_encode_downgrades_writeTo_fails (reg : Registry) (m : RpcMessage)
    (hct : compressTypeB m.header ≠ 0) :
    (reg (compressTypeB m.header) = none →
      encodeSlicePointer reg m = frameBytes (setCompressTypeB m.header 0)
        m.servicePath m.serviceMethod (encMeta m.metadata) m.payload ∧
      writeTo reg m = (m.header, some .unsupportedCompressor)) ∧
    (∀ c e, reg (compressTypeB m.header) = some c → c.zip m.payload = .error e →
      encodeSlicePointer reg m = frameBytes (setCompressTypeB m.header 0)
        m.servicePath m.serviceMethod (encMeta m.metadata) m.payload ∧
      writeTo reg m = (m.header, some (.compressorErr e))) := by
  constructor
  · intro hc
    have hence : encCompress reg m = (setCompressTypeB m.header 0, m.payload) := by
      unfold encCompress
      rw [if_pos hct, hc]
    have hfst : (encCompress reg m).1 = setCompressTypeB m.header 0 := by rw [hence]
    have hsnd : (encCompress reg m).2 = m.payload := by rw [hence]
    constructor
    · unfold encodeSlicePointer
      dsimp only
      rw [hfst, hsnd]
    · unfold writeTo
      rw [if_pos hct, hc]
  · intro c e hc hz
    have hence : encCompress reg m = (setCompressTypeB m.header 0, m.payload) := by
      unfold encCompress
      rw [if_pos hct, hc]
      dsimp only
      rw [hz]
    have hfst : (encCompress reg m).1 = setCompressTypeB m.header 0 := by rw [hence]
    have hsnd : (encCompress reg m).2 = m.payload := by rw [hence]
    constructor
    · unfold encodeSlicePointer
      dsimp only
      rw [hfst, hsnd]
    · unfold writeTo
      rw [if_pos hct, hc]
      dsimp only
      rw [hz]

/-- A compressor whose `Zip` always fails with error code 7. -/
def failCompressor : Compressor := ⟨fun _ => .error 7, fun p => .ok p⟩

/-- A registry carrying the failing compressor under code 1. -/
def regFail : Registry := fun ct => if ct = 1 then some failCompressor else none

/-- A message whose header carries compression code 2 (no compressor
registered anywhere for it). -/
def mCode2 : RpcMessage := ⟨[8, 0, 8, 0, 0, 0, 0, 0, 0, 0, 0, 0], [1], [2], [], [3]⟩

/-- A message whose header carries code 1, used with `regFail`. -/
def mCode1 : RpcMessage := ⟨gzipHeader, [1], [2], [], [3]⟩

/-- Witness for C4: with no compressor registered, `WriteTo` fails with
`ErrUnsupportedCompressor` after the header; with a failing compressor,
`WriteTo` propagates its error while `EncodeSlicePointer` downgrades to an
identity-compression frame of the original payload. -/
theorem c4_encode_downgrades_writeTo_fails_witness :
    writeTo regEmpty mCode2 = (mCode2.header, some .unsupportedCompressor) ∧
    writeTo regFail mCode1 = (mCode1.header, some (.compressorErr 7)) ∧
    encodeSlicePointer regFail mCode1 = frameBytes (setCompressTypeB mCode1.header 0)
      mCode1.servicePath mCode1.serviceMethod (encMeta mCode1.metadata)
      mCode1.payload :=
  ⟨((c4_encode_downgrades_writeTo_fails regEmpty mCode2 (by decide)).1 rfl).2,
   ((c4_encode_downgrades_writeTo_fails regFail mCode1 (by decide)).2
     failCompressor 7 rfl rfl).2,
   ((c4_encode_downgrades_writeTo_fails regFail mCode1 (by decide)).2
     failCompressor 7 rfl rfl).1⟩

/-! ## C6: `baseSession.Close` idempotence (`src/server/session.go`)

`baseSession` holds a one-shot `closed` channel and a `sync.Once`
(`closeOnce`); `Close` runs `closeOnce.Do(func() { close(s.closed) })`.
`sync.Once` serializes concurrent callers and runs the function iff it has
not run before, so any interleaving of concurrent `Close` calls behaves as
some sequential order of calls, which this model quantifies over. Closing
an already-closed Go channel panics; the `fired` counter records how many
times `close(s.closed)` actually ran. -/

/-- The close-relevant state of a `baseSession`. -/
structure SessState where
  /-- whether `closeOnce` has already run its function -/
  onceDone : Bool
  /-- whether the `closed` channel has been closed -/
  chClosed : Bool
  /-- how many times `close(s.closed)` executed (the one-shot signal) -/
  fired : Nat
  deriving DecidableEq, Repr

/-- `close(s.closed)`: panics when the channel is already closed. -/
def closeChan (s : SessState) : GoResult SessState :=
  if s.chClosed then .panic
  else .ok { s with chClosed := true, fired := s.fired + 1 }

/-- `baseSession.Close()`: `closeOnce.Do(func() { close(s.closed) })`. -/
def sessClose (s : SessState) : GoResult SessState :=
  if s.onceDone then .ok s
  else
    match closeChan s with
    | .ok s2 => .ok { s2 with onceDone := true }
    | .err e => .err e
    | .panic => .panic

/-- A sequence of `n` `Close` calls (any serialization of concurrent
callers), stopping on a panic. -/
def iterClose : Nat → SessState → GoResult SessState
  | 0, s => .ok s
  | n + 1, s =>
    match sessClose s with
    | .ok s2 => iterClose n s2
    | .err e => .err e
    | .panic => .panic

/-- The state of a freshly created session (`newStreamSession` /
`newWsSession`): `closed` open, once not used, signal never fired. -/
def freshSess : SessState := ⟨false, false, 0⟩

theorem iterClose_done (n : Nat) :
    iterClose n ⟨true, true, 1⟩ = .ok ⟨true, true, 1⟩ := by
  induction n with
  | zero => rfl
  | succ n ih =>
    unfold iterClose sessClose
    rw [if_pos rfl]
    exact ih

/-- C6: any positive number of `Close` calls on a fresh session — in any
serialization of concurrent callers — never errors or panics, closes the
one-shot signal, and fires it exactly once: the first call wins and every
later call is a no-op. -/
theorem c6_close_idempotent (n : Nat) (hn : 1 ≤ n) :
    iterClose n freshSess = .ok ⟨true, true, 1⟩ := by
  cases n with
  | zero => omega
  | succ n =>
    unfold iterClose sessClose freshSess closeChan
    simp only [if_neg (by decide : ¬ (false = true)), Bool.false_eq_true]
    exact iterClose_done n

/-- Witness for C6: three consecutive `Close` calls end with the signal
fired exactly once and no panic. -/
theorem c6_close_idempotent_witness :
    iterClose 3 freshSess = .ok ⟨true, true, 1⟩ :=
  c6_close_idempotent 3 (by decide)

/-! ## C7: `attemptConnWrite` retry policy (`src/server/session.go`)

Both `streamSession.attemptConnWrite` and `wsSession.attemptConnWrite`
run the same loop; only the physical write differs, so the loop is
modelled once, with the write outcomes given by an oracle `outcome i` for
attempt `i`. `tempErrDelay` is 5 milliseconds in the source. -/

/-- The result of one physical write: success, or an error with its
`net.Error` classification (`isNet`: the type assertion succeeds;
`timeout`: `ne.Timeout()`; `temporary`: `ne.Temporary()`). -/
inductive WriteOutcome where
  | ok
  | fail (isNet timeout temporary : Bool)
  deriving DecidableEq, Repr

/-- An error retried by the loop: a temporary, non-timeout `net.Error`. -/
def retryable : WriteOutcome → Bool
  | .ok => false
  | .fail isNet t tp => isNet && !t && tp

/-- The error value an outcome leaves in `err`. -/
def errOf : WriteOutcome → Option (Bool × Bool × Bool)
  | .ok => none
  | .fail isNet t tp => some (isNet, t, tp)

/-- `tempErrDelay = time.Millisecond * 5`. -/
def tempErrDelay : Nat := 5

/-- What a run of the loop did: the sleeps performed (in order), the
number of physical writes, and the error returned. -/
structure WriteTrace where
  sleeps : List Nat
  writes : Nat
  err : Option (Bool × Bool × Bool)
  deriving DecidableEq, Repr

/-- The `for i := 0; i < attemptTimes; i++` loop of `attemptConnWrite`:
sleep `tempErrDelay * i`, write, break on success or on the last attempt,
break unless the error is a `net.Error`, break on timeout, continue on
temporary, break otherwise. -/
def attemptLoop (outcome : Nat → WriteOutcome) (attemptTimes i : Nat) : WriteTrace :=
  if h : i < attemptTimes then
    match outcome i with
    | .ok => ⟨[tempErrDelay * i], 1, none⟩
    | .fail isNet t tp =>
      if i = attemptTimes - 1 then ⟨[tempErrDelay * i], 1, some (isNet, t, tp)⟩
      else if !isNet then ⟨[tempErrDelay * i], 1, some (isNet, t, tp)⟩
      else if t then ⟨[tempErrDelay * i], 1, some (isNet, t, tp)⟩
      else if tp then
        let r := attemptLoop outcome attemptTimes (i + 1)
        ⟨tempErrDelay * i :: r.sleeps, r.writes + 1, r.err⟩
      else ⟨[tempErrDelay * i], 1, some (isNet, t, tp)⟩
  else ⟨[], 0, none⟩
termination_by attemptTimes - i

/-- `attemptConnWrite(outboundMsg, attemptTimes)`: run the loop from 0. -/
def attemptConnWrite (outcome : Nat → WriteOutcome) (attemptTimes : Nat) : WriteTrace :=
  attemptLoop outcome attemptTimes 0

theorem attemptLoop_spec (outcome : Nat → WriteOutcome) (A k : Nat) :
    ∀ i, A ≤ i + k → i < A →
      1 ≤ (attemptLoop outcome A i).writes ∧
      i + (attemptLoop outcome A i).writes ≤ A ∧
      (attemptLoop outcome A i).sleeps =
        (List.range' i ((attemptLoop outcome A i).writes)).map
          (fun j => tempErrDelay * j) ∧
      (∀ j, i ≤ j → j + 1 < i + (attemptLoop outcome A i).writes →
        retryable (outcome j) = true) ∧
      (i + (attemptLoop outcome A i).writes < A →
        retryable (outcome (i + (attemptLoop outcome A i).writes - 1)) = false) ∧
      (attemptLoop outcome A i).err =
        errOf (outcome (i + (attemptLoop outcome A i).writes - 1)) := by
  induction k with
  | zero => intro i hk hi; omega
  | succ k ih =>
    intro i hk hi
    cases houtcome : outcome i with
    | ok =>
      have hstep : attemptLoop outcome A i = ⟨[tempErrDelay * i], 1, none⟩ := by
        rw [attemptLoop, dif_pos hi, houtcome]
      rw [hstep]
      dsimp only
      refine ⟨le_refl 1, by omega, by simp [List.range'_one], ?_, ?_, ?_⟩
      · intro j h1 h2; omega
      · intro _
        rw [show i + 1 - 1 = i from by omega, houtcome]
        rfl
      · rw [show i + 1 - 1 = i from by omega, houtcome]
        rfl
    | fail isNet t tp =>
      by_cases hlast : i = A - 1
      · have hstep : attemptLoop outcome A i =
            ⟨[tempErrDelay * i], 1, some (isNet, t, tp)⟩ := by
          rw [attemptLoop, dif_pos hi, houtcome]
          simp [hlast]
        rw [hstep]
        dsimp only
        refine ⟨le_refl 1, by omega, by simp [List.range'_one], ?_, ?_, ?_⟩
        · intro j h1 h2; omega
        · intro habs; omega
        · rw [show i + 1 - 1 = i from by omega, houtcome]
          rfl
      · cases isNet with
        | false =>
          have hstep : attemptLoop outcome A i =
              ⟨[tempErrDelay * i], 1, some (false, t, tp)⟩ := by
            rw [attemptLoop, dif_pos hi, houtcome]
            simp [hlast]
          rw [hstep]
          dsimp only
          refine ⟨le_refl 1, by omega, by simp [List.range'_one], ?_, ?_, ?_⟩
          · intro j h1 h2; omega
          · intro _
            rw [show i + 1 - 1 = i from by omega, houtcome]
            rfl
          · rw [show i + 1 - 1 = i from by omega, houtcome]
            rfl
        | true =>
          cases t with
          | true =>
            have hstep : attemptLoop outcome A i =
                ⟨[tempErrDelay * i], 1, some (true, true, tp)⟩ := by
              rw [attemptLoop, dif_pos hi, houtcome]
              simp [hlast]
            rw [hstep]
            dsimp only
            refine ⟨le_refl 1, by omega, by simp [List.range'_one], ?_, ?_, ?_⟩
            · intro j h1 h2; omega
            · intro _
              rw [show i + 1 - 1 = i from by omega, houtcome]
              rfl
            · rw [show i + 1 - 1 = i from by omega, houtcome]
              rfl
          | false =>
            cases tp with
            | false =>
              have hstep : attemptLoop outcome A i =
                  ⟨[tempErrDelay * i], 1, some (true, false, false)⟩ := by
                rw [attemptLoop, dif_pos hi, houtcome]
                simp [hlast]
              rw [hstep]
              dsimp only
              refine ⟨le_refl 1, by omega, by simp [List.range'_one], ?_, ?_, ?_⟩
              · intro j h1 h2; omega
              · intro _
                rw [show i + 1 - 1 = i from by omega, houtcome]
                rfl
              · rw [show i + 1 - 1 = i from by omega, houtcome]
                rfl
            | true =>
              have hstep : attemptLoop outcome A i =
                  ⟨tempErrDelay * i :: (attemptLoop outcome A (i + 1)).sleeps,
                    (attemptLoop outcome A (i + 1)).writes + 1,
                    (attemptLoop outcome A (i + 1)).err⟩ := by
                rw [attemptLoop, dif_pos hi, houtcome]
                simp [hlast]
              have hi1 : i + 1 < A := by omega
              obtain ⟨ih1, ih2, ih3, ih4, ih5, ih6⟩ := ih (i + 1) (by omega) hi1
              rw [hstep]
              dsimp only
              refine ⟨by omega, by omega, ?_, ?_, ?_, ?_⟩
              · rw [List.range'_succ, List.map_cons, ih3]
              · intro j h1 h2
                by_cases hji : j = i
                · subst hji
                  rw [houtcome]
                  rfl
                · exact ih4 j (by omega) (by omega)
              · intro habs
                rw [show i + ((attemptLoop outcome A (i + 1)).writes + 1) - 1 =
                  i + 1 + (attemptLoop outcome A (i + 1)).writes - 1 from by omega]
                exact ih5 (by omega)
              · rw [show i + ((attemptLoop outcome A (i + 1)).writes + 1) - 1 =
                  i + 1 + (attemptLoop outcome A (i + 1)).writes - 1 from by omega]
                exact ih6

/-- C7: with `A ≥ 1` configured attempts, the write loop performs between
1 and `A` physical writes; the sleeps before the attempts are exactly
`attempt index × tempErrDelay` (zero before the first); every attempt
before the last performed one failed with a temporary, non-timeout
`net.Error` (the only retried class); if the loop stopped before
exhausting the attempts, the last outcome was a success or a non-retryable
error; and the returned error is the last attempt's outcome. -/
theorem c7_write_retry_policy (outcome : Nat → WriteOutcome) (A : Nat) (hA : 1 ≤ A) :
    1 ≤ (attemptConnWrite outcome A).writes ∧
    (attemptConnWrite outcome A).writes ≤ A ∧
    (attemptConnWrite outcome A).sleeps =
      (List.range (attemptConnWrite outcome A).writes).map
        (fun i => tempErrDelay * i) ∧
    (∀ i, i + 1 < (attemptConnWrite outcome A).writes →
      retryable (outcome i) = true) ∧
    ((attemptConnWrite outcome A).writes < A →
      retryable (outcome ((attemptConnWrite outcome A).writes - 1)) = false) ∧
    (attemptConnWrite outcome A).err =
      errOf (outcome ((attemptConnWrite outcome A).writes - 1)) := by
  have h := attemptLoop_spec outcome A A 0 (by omega) (by omega)
  obtain ⟨h1, h2, h3, h4, h5, h6⟩ := h
  unfold attemptConnWrite
  refine ⟨h1, by omega, ?_, ?_, ?_, ?_⟩
  · rw [List.range_eq_range']
    simpa using h3
  · intro i hi
    exact h4 i (by omega) (by omega)
  · intro habs
    have := h5 (by omega)
    simpa using this
  · simpa using h6

/-- A write oracle failing with a temporary network error on attempts 0
and 1 and succeeding afterwards. -/
def woSample : Nat → WriteOutcome := fun i => if i < 2 then .fail true false true else .ok

/-- Witness for C7: five configured attempts against an oracle that fails
with a temporary network error on the first two attempts and then
succeeds. -/
theorem c7_write_retry_policy_witness :
    1 ≤ (attemptConnWrite woSample 5).writes ∧
    (attemptConnWrite woSample 5).writes ≤ 5 ∧
    (attemptConnWrite woSample 5).sleeps =
      (List.range (attemptConnWrite woSample 5).writes).map
        (fun i => tempErrDelay * i) ∧
    (∀ i, i + 1 < (attemptConnWrite woSample 5).writes →
      retryable (woSample i) = true) ∧
    ((attemptConnWrite woSample 5).writes < 5 →
      retryable (woSample ((attemptConnWrite woSample 5).writes - 1)) = false) ∧
    (attemptConnWrite woSample 5).err =
      errOf (woSample ((attemptConnWrite woSample 5).writes - 1)) :=
  c7_write_retry_policy woSample 5 (by decide)

/-! ## C8: context reset on allocation
(`src/service/service_manager.go`, `src/server/session.go`)

`routeContext` carries the request context, route params, a key-value
store, method/path, the middleware handler chain and its integer cursor,
request/response messages, the owning session and an engine pointer.
Handler functions and the engine are modelled as opaque identifiers. -/

/-- A `context.Context` value: `context.Background()` or any other. -/
inductive GoCtx where
  | background
  | other (id : Nat)
  deriving DecidableEq, Repr

/-- The fields of `routeContext`. -/
structure RouteContext where
  rawCtx : GoCtx
  params : List (List Nat × List Nat)
  storage : Option (List (List Nat × Nat))
  method : List Nat
  path : List Nat
  handlers : List Nat
  index : Int
  reqMsg : Option RpcMessage
  rspMsg : Option RpcMessage
  session : Option Nat
  engine : Option Nat
  deriving DecidableEq, Repr

/-- `routeContext.reset()`: sets `rawCtx` to `context.Background()` and
nils `session`, `reqMsg`, `rspMsg` and `storage` — and touches nothing
else. -/
def resetCtx (c : RouteContext) : RouteContext :=
  { c with
    rawCtx := .background, session := none, reqMsg := none,
    rspMsg := none, storage := none }

/-- `baseSession.AllocateContext()`: take a pooled context, `reset()` it,
and attach the session (`SetSession`). -/
def allocateContext (pooled : RouteContext) (sess : Nat) : RouteContext :=
  { resetCtx pooled with session := some sess }

/-- `NewContext()`: everything zero, `rawCtx = context.Background()` —
the state of a context that has never served a request (handler list
empty, cursor 0). -/
def newContext : RouteContext :=
  ⟨.background, [], none, [], [], [], 0, none, none, none, none⟩

/-- C8, amended: a Context handed out by `AllocateContext` has its
request message, response message, key-value store and cancellation
scope cleared and its session attached — but the middleware-chain cursor
(`index`) and handler list (and params, method, path, engine) keep
whatever the previous request left in them; `reset()` does not touch
them. -/
theorem c8_reset_partial (c : RouteContext) (sess : Nat) :
    allocateContext c sess =
      { c with
        rawCtx := .background, reqMsg := none, rspMsg := none,
        storage := none, session := some sess } := rfl

/-- A pooled context still carrying the previous request's state. -/
def dirtyCtx : RouteContext :=
  ⟨.other 9, [([1], [2])], some [([3], 4)], [5], [6], [7, 8], 3,
    some ⟨freshHeader, [], [], [], []⟩, some ⟨freshHeader, [], [], [], []⟩,
    some 2, some 1⟩

/-- Counterexample for C8 as frozen: the claim says the middleware-chain
cursor and handler list are cleared before the Context is returned, but a
pooled context whose previous request left handlers `[7, 8]` and cursor 3
comes back from `AllocateContext` with them intact (a cleared context,
per `NewContext`, would have an empty handler list and cursor 0). -/
theorem c8_counterexample :
    (allocateContext dirtyCtx 5).handlers = [7, 8] ∧
    (allocateContext dirtyCtx 5).index = 3 ∧
    ((allocateContext dirtyCtx 5).handlers ≠ newContext.handlers ∧
     (allocateContext dirtyCtx 5).index ≠ newContext.index) := by
  refine ⟨rfl, rfl, by decide, by decide⟩

/-! ## C10: `SetMessageType` only ORs bit 7 (`src/unnamed/part_000`) -/

set_option maxRecDepth 2000 in
/-- C10: `SetMessageType` ORs `byte(mt) << 7` into the flags byte and
never clears bit 7: on a header already marked Response (bit 7 set),
`SetMessageType(Request)` leaves the message type Response, so the
setter/getter round trip fails for `Request`; the heartbeat, oneway,
compression and status setters, which mask before setting, all round
trip. -/
theorem c10_set_message_type_or_only (h : List Nat) (hlen : h.length = 12)
    (hbyte : h.getD 2 0 < 256) (hresp : messageTypeB h = 1) :
    messageTypeB (setMessageTypeB h 0) = 1 ∧
    (∀ b : Bool, isHeartbeatB (setHeartbeatB h b) = b) ∧
    (∀ b : Bool, isOnewayB (setOnewayB h b) = b) ∧
    (∀ ct : Nat, ct < 8 → compressTypeB (setCompressTypeB h ct) = ct) ∧
    (∀ st : Nat, st < 4 → messageStatusTypeB (setMessageStatusTypeB h st) = st) := by
  have h2 : 2 < h.length := by omega
  have hget : ∀ v : Nat, (h.set 2 v).getD 2 0 = v := by
    intro v
    rw [List.getD_eq_getElem?_getD, List.getElem?_set_self (by omega)]
    rfl
  constructor
  · unfold messageTypeB setMessageTypeB
    rw [hget]
    have : h.getD 2 0 ||| (0 % 256) <<< 7 % 256 = h.getD 2 0 := by simp
    rw [this]
    exact hresp
  refine ⟨?_, ?_, ?_, ?_⟩
  · intro b
    cases b with
    | true =>
      unfold isHeartbeatB setHeartbeatB
      rw [if_pos rfl, hget]
      revert hbyte
      generalize h.getD 2 0 = x
      revert x
      decide
    | false =>
      unfold isHeartbeatB setHeartbeatB
      rw [if_neg (by decide), hget]
      revert hbyte
      generalize h.getD 2 0 = x
      revert x
      decide
  · intro b
    cases b with
    | true =>
      unfold isOnewayB setOnewayB
      rw [if_pos rfl, hget]
      revert hbyte
      generalize h.getD 2 0 = x
      revert x
      decide
    | false =>
      unfold isOnewayB setOnewayB
      rw [if_neg (by decide), hget]
      revert hbyte
      generalize h.getD 2 0 = x
      revert x
      decide
  · intro ct hct
    unfold compressTypeB setCompressTypeB
    rw [hget]
    have key : ∀ ct, ct < 8 → ∀ x, x < 256 →
        ((x &&& 255 - 28 ||| (ct % 256) <<< 2 &&& 28) &&& 28) >>> 2 = ct := by decide
    exact key ct hct (h.getD 2 0) hbyte
  · intro st hst
    unfold messageStatusTypeB setMessageStatusTypeB
    rw [hget]
    have key : ∀ st, st < 4 → ∀ x, x < 256 →
        (x &&& 255 - 3 ||| st % 256 &&& 3) &&& 3 = st := by decide
    exact key st hst (h.getD 2 0) hbyte

/-- Witness for C10: a fresh header marked Response (flags byte 0x80)
keeps message type Response after `SetMessageType(Request)`, while the
masking setters round trip. -/
theorem c10_set_message_type_or_only_witness :
    messageTypeB (setMessageTypeB [8, 0, 128, 0, 0, 0, 0, 0, 0, 0, 0, 0] 0) = 1 ∧
    (∀ b : Bool,
      isHeartbeatB (setHeartbeatB [8, 0, 128, 0, 0, 0, 0, 0, 0, 0, 0, 0] b) = b) ∧
    (∀ b : Bool,
      isOnewayB (setOnewayB [8, 0, 128, 0, 0, 0, 0, 0, 0, 0, 0, 0] b) = b) ∧
    (∀ ct : Nat, ct < 8 →
      compressTypeB (setCompressTypeB [8, 0, 128, 0, 0, 0, 0, 0, 0, 0, 0, 0] ct) = ct) ∧
    (∀ st : Nat, st < 4 →
      messageStatusTypeB
        (setMessageStatusTypeB [8, 0, 128, 0, 0, 0, 0, 0, 0, 0, 0, 0] st) = st) :=
  c10_set_message_type_or_only [8, 0, 128, 0, 0, 0, 0, 0, 0, 0, 0, 0]
    (by decide) (by decide) (by decide)

end GoTool
